import Mathlib

/-!
Verification development for the EV fleet charging optimizer.

Shallow embedding of the repository's core code:
  - the scheduler in `src/unnamed/part_005` (`calculateDistance`,
    `calculateChargingCost`, `calculatePriority`, `findOptimalChargingWindow`,
    `optimizeChargingSchedule`), and
  - the tabular Q-learning agent in `src/unnamed/part_000`
    (`ReinforcementLearningAgent`).

Modelling conventions:
  - JavaScript numbers are modelled as rationals (`ℚ`); all arithmetic the
    embedded code performs on its inputs is exact rational arithmetic.
  - `Math.round x` is `⌊x + 1/2⌋` (JS rounds half up), `Math.ceil` is
    `Int.ceil`, `Math.floor` is `Int.floor`.
  - Wall-clock time is an explicit `Clock` input: `nowMs` models
    `Date.now()`, `hour` models `new Date().getHours()`, `dayStartMs` is the
    epoch instant of the current local midnight, so `setHours(h,0,0,0)`
    becomes `dayStartMs + h * 3600000` and `setDate(getDate() + 1)` adds
    86400000 ms (days are modelled as fixed 24-hour spans).
  - Array indexing that can hit `undefined` in JS (and then throw a
    `TypeError` on `.price`) is modelled with `Except String`; an `.error`
    result models a thrown exception escaping `optimizeChargingSchedule`.
  - `calculateDistance` returns `Math.sqrt(dx*dx + dy*dy)`, which is
    irrational in general.  The only uses of distances are strict `<`
    comparisons during nearest-station selection and the rounded
    `distance_to_station` plan field; since `Real.sqrt` is strictly monotone
    on nonnegatives, comparing squared distances selects the same station,
    and the embedding stores the squared distance in the plan
    (`distance_sq_to_station`).  No claim refers to the distance field.
  - JS `Map` objects (`stationAssignments`, the agent's `qTable`) are
    modelled as association lists with JS `Map.set` semantics (update in
    place, append when fresh); mutation is explicit state passing.
  - `Math.random()` draws are explicit inputs (`rand`, `randIdx`) of the
    agent's `selectAction` / `recommendStrategy`.
-/

/-! ## Data model (src/backend/src/models/types.ts) -/

structure Location where
  x : ℚ
  y : ℚ
deriving DecidableEq, Repr

structure TripSchedule where
  departure : ℚ
  arrival : ℚ
  destination : Option String := none
deriving DecidableEq, Repr

inductive VStatus where
  | idle
  | charging
  | in_use
  | maintenance
deriving DecidableEq, Repr

structure ElectricVehicle where
  vehicle_id : String
  battery_capacity : ℚ
  current_charge : ℚ
  soc : ℚ
  location : Location
  trip_schedule : List TripSchedule
  status : VStatus
  model : String
  charging_speed : ℚ
deriving DecidableEq, Repr

inductive CType where
  | fast
  | standard
  | ultra_fast
deriving DecidableEq, Repr

structure ChargingStation where
  station_id : String
  location : Location
  max_power : ℚ
  available : Bool
  current_usage : ℚ
  occupied_by : Option String := none
  ctype : CType            -- source field name: `type` (a Lean keyword)
deriving DecidableEq, Repr

inductive Period where
  | peak
  | off_peak
  | shoulder
deriving DecidableEq, Repr

structure EnergyPricing where
  hour : ℕ
  price : ℚ
  period : Period
  demand : ℚ
deriving DecidableEq, Repr

inductive Priority where
  | high
  | medium
  | low
deriving DecidableEq, Repr

/-- A charging plan.  `distance_sq_to_station` stores the square of the
source's `distance_to_station` before its `Math.round(· * 10) / 10`
(see the sqrt note in the header). -/
structure ChargingPlan where
  vehicle_id : String
  station_id : String
  start_time : ℚ
  end_time : ℚ
  energy_to_charge : ℚ
  estimated_cost : ℚ
  priority : Priority
  distance_sq_to_station : ℚ
deriving DecidableEq, Repr

/-- The frozen wall clock supplied to one optimization cycle. -/
structure Clock where
  nowMs : ℚ
  dayStartMs : ℚ
  hour : ℕ
deriving DecidableEq, Repr

/-! ## Rounding helpers (JS `Math.round`) -/

/-- JS `Math.round`: round half away from zero upward, `⌊x + 1/2⌋`. -/
def jsRound (x : ℚ) : ℤ := Int.floor (x + 1/2)

/-- Source `Math.round(x * 10) / 10`. -/
def round1 (x : ℚ) : ℚ := ((jsRound (x * 10) : ℤ) : ℚ) / 10

/-- Source `Math.round(x * 100) / 100`. -/
def round2 (x : ℚ) : ℚ := ((jsRound (x * 100) : ℤ) : ℚ) / 100

/-! ## Scheduler (src/unnamed/part_005) -/

/-- Square of `calculateDistance` (Euclidean distance between locations). -/
def calculateDistanceSq (a b : Location) : ℚ :=
  (a.x - b.x) * (a.x - b.x) + (a.y - b.y) * (a.y - b.y)

/-- Source `pricing[idx].price`; out-of-range indexing models the JS `TypeError`
thrown by reading `.price` of `undefined`. -/
def priceAt (pricing : List EnergyPricing) (idx : ℕ) : Except String ℚ :=
  match pricing.get? idx with
  | some e => .ok e.price
  | none => .error "price index out of range"

/-- Pure view of `pricing[idx].price` with default 0, used in specifications. -/
def priceD (pricing : List EnergyPricing) (idx : ℕ) : ℚ :=
  ((pricing.get? idx).map (·.price)).getD 0

/-- One iteration per remaining bucket index of the `calculateChargingCost`
loop: `totalCost += min(energy / duration, energy) * pricing[(start+i)%24].price`. -/
def costLoop (E d : ℚ) (pricing : List EnergyPricing) (startHour : ℕ) :
    List ℕ → ℚ → Except String ℚ
  | [], acc => .ok acc
  | i :: is, acc =>
    match priceAt pricing ((startHour + i) % 24) with
    | .error e => .error e
    | .ok p => costLoop E d pricing startHour is (acc + min (E / d) E * p)

/-- Source `calculateChargingCost(energyAmount, startHour, durationHours, pricing)`:
sums `ceil(durationHours)` hourly buckets starting at `startHour`. -/
def calculateChargingCost (E : ℚ) (startHour : ℕ) (d : ℚ)
    (pricing : List EnergyPricing) : Except String ℚ :=
  costLoop E d pricing startHour (List.range (Int.ceil d).toNat) 0

/-- Closed form of `calculateChargingCost` on an adequate price table. -/
def costVal (E d : ℚ) (pricing : List EnergyPricing) (startHour : ℕ) : ℚ :=
  ∑ i in Finset.range (Int.ceil d).toNat,
    min (E / d) E * priceD pricing ((startHour + i) % 24)

/-- Source `(trip_schedule[0].departure - Date.now()) / (1000*60*60)`; only read
under a nonempty-schedule guard, the `[]` branch is dead. -/
def hoursUntilFirstTrip (nowMs : ℚ) (v : ElectricVehicle) : ℚ :=
  match v.trip_schedule with
  | [] => 0
  | t :: _ => (t.departure - nowMs) / 3600000

/-- Source `calculatePriority(vehicle)` (reads `Date.now()`, passed as `nowMs`). -/
def calculatePriority (nowMs : ℚ) (v : ElectricVehicle) : Priority :=
  if v.soc < 30 ∧ v.trip_schedule ≠ [] ∧ hoursUntilFirstTrip nowMs v < 6 then .high
  else if v.soc < 30 then .high
  else if v.soc < 60 ∧ v.trip_schedule ≠ [] then .medium
  else .low

/-- The spec's priority rules, written from the spec's words (§4.1), for the
refinement claim C3: evaluated in order, first match wins. -/
def specPriorityRules (nowMs : ℚ) (v : ElectricVehicle) : Priority :=
  if v.soc < 30 ∧ nextTripImminent nowMs v 6 then .high
  else if v.soc < 30 then .high
  else if v.soc < 60 ∧ v.trip_schedule ≠ [] then .medium
  else .low
where
  /-- the next (first) scheduled trip departs within `hrs` hours -/
  nextTripImminent (nowMs : ℚ) (v : ElectricVehicle) (hrs : ℚ) : Bool :=
    match v.trip_schedule with
    | [] => false
    | t :: _ => decide ((t.departure - nowMs) / 3600000 < hrs)

/-- The urgent-trip test of `findOptimalChargingWindow`: the schedule is
nonempty and the first trip departs within `durationHours + 2` hours. -/
def tripUrgent (clock : Clock) (v : ElectricVehicle) (d : ℚ) : Bool :=
  match v.trip_schedule with
  | [] => false
  | t :: _ => decide ((t.departure - clock.nowMs) / 3600000 < d + 2)

/-- The 24-candidate scan of `findOptimalChargingWindow`: state is
`(minCost, optimalHour)` with `none` modelling the initial `Infinity`;
candidate `j` is actual hour `(currentHour + j) % 24`. -/
def scanLoop (d : ℚ) (pricing : List EnergyPricing) (currentHour : ℕ) :
    List ℕ → Option ℚ × ℕ → Except String (Option ℚ × ℕ)
  | [], st => .ok st
  | j :: js, st =>
    match calculateChargingCost 1 ((currentHour + j) % 24) d pricing with
    | .error e => .error e
    | .ok c =>
      match st.1 with
      | none => scanLoop d pricing currentHour js (some c, (currentHour + j) % 24)
      | some m =>
        if c < m then scanLoop d pricing currentHour js (some c, (currentHour + j) % 24)
        else scanLoop d pricing currentHour js st

/-- Source `findOptimalChargingWindow(vehicle, durationHours, pricing)`. -/
def findOptimalChargingWindow (clock : Clock) (v : ElectricVehicle) (d : ℚ)
    (pricing : List EnergyPricing) : Except String ℕ :=
  if tripUrgent clock v d then .ok clock.hour
  else
    match scanLoop d pricing clock.hour (List.range 24) (none, clock.hour) with
    | .error e => .error e
    | .ok st => .ok st.2

/-- Source `(vehicle.battery_capacity * (90 - vehicle.soc)) / 100`. -/
def energyNeeded (v : ElectricVehicle) : ℚ :=
  v.battery_capacity * (90 - v.soc) / 100

/-- The nearest-station loop over `availableStations`, skipping
already-assigned ids and keeping the strictly closer station; the
accumulator `(nearestStation, minDistance)` starts as `none`, modelling
`(null, Infinity)` (squared distances; see the sqrt note in the header). -/
def nearestLoop (v : ElectricVehicle) (assigned : List String) :
    List ChargingStation → Option (ChargingStation × ℚ) → Option (ChargingStation × ℚ)
  | [], acc => acc
  | st :: rest, acc =>
    if st.station_id ∈ assigned then nearestLoop v assigned rest acc
    else
      match acc with
      | none =>
        nearestLoop v assigned rest (some (st, calculateDistanceSq v.location st.location))
      | some (b, m) =>
        if calculateDistanceSq v.location st.location < m then
          nearestLoop v assigned rest (some (st, calculateDistanceSq v.location st.location))
        else nearestLoop v assigned rest (some (b, m))

/-- Nearest-available-station selection of `optimizeChargingSchedule`. -/
def selectNearest (v : ElectricVehicle) (stations : List ChargingStation)
    (assigned : List String) : Option (ChargingStation × ℚ) :=
  nearestLoop v assigned stations none

/-- Source `priorityOrder = { high: 3, medium: 2, low: 1 }`. -/
def priorityOrder : Priority → ℕ
  | .high => 3
  | .medium => 2
  | .low => 1

/-- Insert a vehicle into a list already sorted by descending `rank`,
before the first element of lower-or-equal rank (stable). -/
def insertDesc (rank : ElectricVehicle → ℕ) (v : ElectricVehicle) :
    List ElectricVehicle → List ElectricVehicle
  | [] => [v]
  | w :: ws => if rank w ≤ rank v then v :: w :: ws else w :: insertDesc rank v ws

/-- Stable descending sort by `rank`: models the JS stable
`sort((a, b) => priorityOrder[bPriority] - priorityOrder[aPriority])`. -/
def sortDesc (rank : ElectricVehicle → ℕ) : List ElectricVehicle → List ElectricVehicle
  | [] => []
  | v :: vs => insertDesc rank v (sortDesc rank vs)

/-- The plan record pushed for one vehicle (the object literal in
`optimizeChargingSchedule`), including the start-time resolution: high
priority charges immediately at `now`; otherwise the optimal hour today, or
tomorrow when that hour is already past. -/
def mkPlanFor (clock : Clock) (v : ElectricVehicle) (st : ChargingStation)
    (d2 : ℚ) (optH : ℕ) (eN rate cost : ℚ) : ChargingPlan :=
  let priority := calculatePriority clock.nowMs v
  let startTime :=
    if priority = Priority.high then clock.nowMs
    else if optH < clock.hour then clock.dayStartMs + 86400000 + (optH : ℚ) * 3600000
    else clock.dayStartMs + (optH : ℚ) * 3600000
  { vehicle_id := v.vehicle_id
    station_id := st.station_id
    start_time := startTime
    end_time := startTime + (eN / rate) * 3600000
    energy_to_charge := round1 eN
    estimated_cost := round2 cost
    priority := priority
    distance_sq_to_station := d2 }

/-- The per-vehicle loop of `optimizeChargingSchedule`:  skip when the energy
need is nonpositive or no unassigned available station remains; a zero
effective charging rate makes the JS cost loop run forever (duration
`Infinity`), modelled as an error; otherwise emit a plan and mark the chosen
station as assigned for the rest of the cycle. -/
def scheduleLoop (clock : Clock) (pricing : List EnergyPricing)
    (avail : List ChargingStation) :
    List ElectricVehicle → List String → Except String (List ChargingPlan)
  | [], _ => .ok []
  | v :: rest, assigned =>
    if energyNeeded v ≤ 0 then scheduleLoop clock pricing avail rest assigned
    else
      match selectNearest v avail assigned with
      | none => scheduleLoop clock pricing avail rest assigned
      | some (st, d2) =>
        if min st.max_power v.charging_speed = 0 then
          .error "zero effective charging rate: cost loop would not terminate"
        else
          match findOptimalChargingWindow clock v
              (energyNeeded v / min st.max_power v.charging_speed) pricing with
          | .error e => .error e
          | .ok optH =>
            match calculateChargingCost (energyNeeded v) optH
                (energyNeeded v / min st.max_power v.charging_speed) pricing with
            | .error e => .error e
            | .ok cost =>
              match scheduleLoop clock pricing avail rest
                  (st.station_id :: assigned) with
              | .error e => .error e
              | .ok plans =>
                .ok (mkPlanFor clock v st d2 optH (energyNeeded v)
                      (min st.max_power v.charging_speed) cost :: plans)

/-- Source `optimizeChargingSchedule(fleet, stations, pricing)` under a frozen
clock. -/
def optimizeChargingSchedule (clock : Clock) (fleet : List ElectricVehicle)
    (stations : List ChargingStation) (pricing : List EnergyPricing) :
    Except String (List ChargingPlan) :=
  scheduleLoop clock pricing (stations.filter (·.available))
    (sortDesc (fun v => priorityOrder (calculatePriority clock.nowMs v))
      (fleet.filter (fun v =>
        decide (v.soc < 80 ∧ v.status ≠ VStatus.maintenance ∧
          v.status ≠ VStatus.in_use))))
    []

/-! ## Q-learning agent (src/unnamed/part_000) -/

structure AgentState where
  hour : ℚ
  vehicleSoC : ℚ
  energyPrice : ℚ
  stationAvailability : ℚ
deriving DecidableEq, Repr

inductive Urgency where
  | low
  | medium
  | high
deriving DecidableEq, Repr

structure AgentAction where
  shouldCharge : Bool
  targetSoC : ℤ
  urgency : Urgency
deriving DecidableEq, Repr

structure QValue where
  state : String
  action : String
  value : ℚ
  visits : ℕ
deriving DecidableEq, Repr

/-- The inner `Map<string, QValue>` of action entries for one state key. -/
abbrev ActionMap := List (String × QValue)

/-- The agent's `Map<string, Map<string, QValue>>`. -/
abbrev QTable := List (String × ActionMap)

structure Agent where
  qTable : QTable
  rewardHistory : List ℚ
deriving DecidableEq, Repr

/-- Source `learningRate = 0.1`. -/
def learningRate : ℚ := 0.1

/-- Source `discountFactor = 0.95`. -/
def discountFactor : ℚ := 0.95

/-- Source `epsilon = 0.1`. -/
def agentEpsilon : ℚ := 0.1

def urgencyStr : Urgency → String
  | .low => "low"
  | .medium => "medium"
  | .high => "high"

/-- Source `stateToKey`: hour bucket `floor(hour/4)`, SoC bucket `floor(soc/20)`,
categorical price and availability buckets, joined with dashes. -/
def stateToKey (s : AgentState) : String :=
  toString (Int.floor (s.hour / 4)) ++ "-" ++
  toString (Int.floor (s.vehicleSoC / 20)) ++ "-" ++
  (if s.energyPrice > 0.15 then "high" else if s.energyPrice > 0.10 then "med" else "low")
  ++ "-" ++
  (if s.stationAvailability > 0.7 then "high"
   else if s.stationAvailability > 0.4 then "med" else "low")

/-- Source `actionToKey`. -/
def actionToKey (a : AgentAction) : String :=
  (if a.shouldCharge then "true" else "false") ++ "-" ++
  toString a.targetSoC ++ "-" ++ urgencyStr a.urgency

/-- JS `Map.get` on an association list (first matching key). -/
def alFind {α : Type} (k : String) : List (String × α) → Option α
  | [] => none
  | (k1, v) :: rest => if k1 = k then some v else alFind k rest

/-- JS `Map.set` on an association list: update in place, append when new. -/
def alSet {α : Type} (k : String) (v : α) : List (String × α) → List (String × α)
  | [] => [(k, v)]
  | (k1, v1) :: rest => if k1 = k then (k, v) :: rest else (k1, v1) :: alSet k v rest

/-- Source `if (!qTable.has(stateKey)) qTable.set(stateKey, new Map())`. -/
def ensureState (t : QTable) (sk : String) : QTable :=
  match alFind sk t with
  | some _ => t
  | none => alSet sk [] t

/-- Source `if (!actions.has(actionKey)) actions.set(actionKey, {value: 0, visits: 0})`. -/
def ensureAction (acts : ActionMap) (sk ak : String) : ActionMap :=
  match alFind ak acts with
  | some _ => acts
  | none => alSet ak ⟨sk, ak, 0, 0⟩ acts

/-- Source `getQValue(state, action)`: lazily creates the state row and the
zero-initialized action entry, returns the entry's value.  The returned
table reflects the in-place mutation of the aliased inner map. -/
def getQValueT (t : QTable) (s : AgentState) (a : AgentAction) : ℚ × QTable :=
  let sk := stateToKey s
  let ak := actionToKey a
  let t1 := ensureState t sk
  let acts1 := ensureAction ((alFind sk t1).getD []) sk ak
  (((alFind ak acts1).getD ⟨sk, ak, 0, 0⟩).value, alSet sk acts1 t1)

/-- The value stored for `(sk, ak)`, 0 when absent (specification view). -/
def qval (t : QTable) (sk ak : String) : ℚ :=
  match alFind ak ((alFind sk t).getD []) with
  | none => 0
  | some qv => qv.value

/-- The visit counter stored for `(sk, ak)`, 0 when absent. -/
def qvisits (t : QTable) (sk ak : String) : ℕ :=
  match alFind ak ((alFind sk t).getD []) with
  | none => 0
  | some qv => qv.visits

/-- Source `getPossibleActions`: 9 charge variants then the single no-charge
action — 10 actions, in source construction order. -/
def possibleActions : List AgentAction :=
  [⟨true, 80, .low⟩, ⟨true, 80, .medium⟩, ⟨true, 80, .high⟩,
   ⟨true, 90, .low⟩, ⟨true, 90, .medium⟩, ⟨true, 90, .high⟩,
   ⟨true, 100, .low⟩, ⟨true, 100, .medium⟩, ⟨true, 100, .high⟩,
   ⟨false, 0, .low⟩]

/-- Source `nextActions.map(a => getQValue(nextState, a))`: sequential reads,
threading the lazily-growing table. -/
def getQList (t : QTable) (s : AgentState) : List AgentAction → List ℚ × QTable
  | [] => ([], t)
  | a :: as =>
    let g := getQValueT t s a
    let gl := getQList g.2 s as
    (g.1 :: gl.1, gl.2)

/-- Source `Math.max(...values)` for the (statically nonempty) action-value list;
the `[]` branch is dead code. -/
def listMax : List ℚ → ℚ
  | [] => 0
  | v :: vs => vs.foldl max v

/-- Source `updateQValue(state, action, reward, nextState)`. -/
def updateQValue (ag : Agent) (s : AgentState) (a : AgentAction) (r : ℚ)
    (s2 : AgentState) : Agent :=
  let sk := stateToKey s
  let ak := actionToKey a
  let g := getQValueT ag.qTable s a
  let gl := getQList g.2 s2 possibleActions
  let newQ := g.1 + learningRate * (r + discountFactor * listMax gl.1 - g.1)
  let acts := (alFind sk gl.2).getD []
  let qv := (alFind ak acts).getD ⟨sk, ak, 0, 0⟩
  { qTable := alSet sk (alSet ak ⟨qv.state, qv.action, newQ, qv.visits + 1⟩ acts) gl.2
    rewardHistory := ag.rewardHistory ++ [r] }

/-- Source `learn(state, action, reward, nextState)`. -/
def learn (ag : Agent) (s : AgentState) (a : AgentAction) (r : ℚ)
    (s2 : AgentState) : Agent :=
  updateQValue ag s a r s2

/-- The exploitation fold of `selectAction`: `forEach` over all actions,
strict improvement replaces the best. -/
def selectBest (t : QTable) (s : AgentState) :
    List AgentAction → AgentAction → ℚ → AgentAction × QTable
  | [], best, _ => (best, t)
  | a :: as, best, bestVal =>
    let g := getQValueT t s a
    if g.1 > bestVal then selectBest g.2 s as a g.1
    else selectBest g.2 s as best bestVal

/-- Source `selectAction(state)` with the two `Math.random()` draws explicit:
`rand < epsilon` explores (uniform pick, table untouched), otherwise
exploits by scanning all 10 actions through `getQValue`. -/
def selectActionT (t : QTable) (s : AgentState) (rand : ℚ) (randIdx : ℕ) :
    AgentAction × QTable :=
  if rand < agentEpsilon then
    (possibleActions.getD randIdx ⟨false, 0, .low⟩, t)
  else
    let b0 := possibleActions.headD ⟨false, 0, .low⟩
    let g0 := getQValueT t s b0
    selectBest g0.2 s possibleActions b0 g0.1

/-- The reasoning string assembled by `recommendStrategy`. -/
def recommendReasoning (a : AgentAction) (v : ElectricVehicle)
    (energyPrice : ℚ) : String :=
  (if a.shouldCharge then
    ("Charge to " ++ toString a.targetSoC ++ "% (" ++ urgencyStr a.urgency
      ++ " urgency). ")
    ++ (if energyPrice < 0.10 then "Low energy price detected. " else "")
    ++ (if v.soc < 30 then "Battery level critical. " else "")
  else
    "Wait for better conditions. "
    ++ (if energyPrice > 0.15 then "Energy price too high. " else "")
    ++ (if v.soc > 70 then "Battery level sufficient. " else "")).trim

/-- Source `recommendStrategy(vehicle, currentHour, energyPrice, stationAvailability)`:
builds the state, selects an action, reads its Q-value, clamps
`(q + 50) / 100` into `[0, 1]` as confidence. -/
def recommendStrategyT (ag : Agent) (v : ElectricVehicle) (currentHour : ℚ)
    (energyPrice : ℚ) (stationAvailability : ℚ) (rand : ℚ) (randIdx : ℕ) :
    (Bool × String × ℚ) × QTable :=
  let s : AgentState :=
    { hour := currentHour
      vehicleSoC := v.soc
      energyPrice := energyPrice
      stationAvailability := stationAvailability }
  let sa := selectActionT ag.qTable s rand randIdx
  let g := getQValueT sa.2 s sa.1
  ((sa.1.shouldCharge, recommendReasoning sa.1 v energyPrice,
    round2 (min 1 (max 0 ((g.1 + 50) / 100)))), g.2)

/-! ## Concrete inputs used by witnesses and counterexamples -/

/-- A flat 24-entry price table. -/
def wPricing : List EnergyPricing :=
  (List.range 24).map (fun h =>
    { hour := h
      price := 0.1
      period := Period.shoulder
      demand := 50 })

def wClock : Clock := { nowMs := 0, dayStartMs := 0, hour := 0 }

def wVehicle : ElectricVehicle :=
  { vehicle_id := "V1"
    battery_capacity := 60
    current_charge := 30
    soc := 50
    location := ⟨0, 0⟩
    trip_schedule := []
    status := .idle
    model := "M"
    charging_speed := 48 }

def wStation : ChargingStation :=
  { station_id := "S1"
    location := ⟨0, 0⟩
    max_power := 48
    available := true
    current_usage := 0
    occupied_by := none
    ctype := .fast }

def wFleet : List ElectricVehicle := [wVehicle]

def wStations : List ChargingStation := [wStation]

/-- The plan `optimizeChargingSchedule` produces on the inputs above. -/
def wPlan : ChargingPlan :=
  { vehicle_id := "V1"
    station_id := "S1"
    start_time := 0
    end_time := 1800000
    energy_to_charge := 24
    estimated_cost := 12/5
    priority := .low
    distance_sq_to_station := 0 }

/-- A concrete agent state for the C9 counterexample. -/
def wAgentState : AgentState :=
  { hour := 12, vehicleSoC := 50, energyPrice := 0.12, stationAvailability := 0.5 }

/-! ## Supporting lemmas: the hourly cost model -/

lemma priceAt_ok (pricing : List EnergyPricing) (idx : ℕ)
    (h : idx < pricing.length) : priceAt pricing idx = .ok (priceD pricing idx) := by
  unfold priceAt priceD
  cases hg : pricing.get? idx with
  | none =>
    rw [List.get?_eq_none] at hg
    omega
  | some e => simp [hg]

lemma costLoop_ok (E d : ℚ) (pricing : List EnergyPricing) (startHour : ℕ) :
    ∀ (l : List ℕ) (acc : ℚ),
      (∀ i ∈ l, (startHour + i) % 24 < pricing.length) →
      costLoop E d pricing startHour l acc =
        .ok (acc + (l.map
          (fun i => min (E / d) E * priceD pricing ((startHour + i) % 24))).sum) := by
  intro l
  induction l with
  | nil => intro acc _; simp [costLoop]
  | cons i is ih =>
    intro acc hmem
    have hp := priceAt_ok pricing ((startHour + i) % 24) (hmem i (by simp))
    simp only [costLoop, hp]
    rw [ih _ (fun j hj => hmem j (by simp [hj]))]
    simp [add_assoc]

lemma sum_list_range_eq (f : ℕ → ℚ) (n : ℕ) :
    ((List.range n).map f).sum = ∑ i in Finset.range n, f i := by
  induction n with
  | zero => simp
  | succ m ih => rw [List.range_succ, Finset.sum_range_succ, List.map_append, List.sum_append, ih]; simp

lemma calculateChargingCost_ok (E d : ℚ) (pricing : List EnergyPricing)
    (startHour : ℕ) (h24 : pricing.length = 24) :
    calculateChargingCost E startHour d pricing =
      .ok (costVal E d pricing startHour) := by
  unfold calculateChargingCost costVal
  rw [costLoop_ok E d pricing startHour _ 0
    (fun i _ => by rw [h24]; exact Nat.mod_lt _ (by norm_num))]
  rw [sum_list_range_eq]
  simp

/-- C5: for every energy amount `E`, start hour `h`, positive duration `d` and
24-entry price table, `calculateChargingCost E h d pricing` is the sum over
the `ceil d` hourly buckets `i` of `min (E / d) E * price[(h + i) % 24]`: the
same per-bucket amount is summed once per bucket (the deliberate over-count
for `d > 1` is reproduced, not pro-rated). -/
theorem c5_cost_model (E : ℚ) (h : ℕ) (d : ℚ) (pricing : List EnergyPricing)
    (_hd : 0 < d) (h24 : pricing.length = 24) :
    calculateChargingCost E h d pricing =
      .ok (∑ i in Finset.range (Int.ceil d).toNat,
        min (E / d) E * priceD pricing ((h + i) % 24)) :=
  calculateChargingCost_ok E d pricing h h24

/-- Witness for C5 at `E = 5`, `h = 22`, `d = 3/2` on the flat table. -/
theorem c5_cost_model_witness :
    (0 : ℚ) < 3/2 ∧ wPricing.length = 24 ∧
    calculateChargingCost 5 22 (3/2) wPricing =
      .ok (∑ i in Finset.range (Int.ceil ((3:ℚ)/2)).toNat,
        min ((5:ℚ) / (3/2)) 5 * priceD wPricing ((22 + i) % 24)) :=
  ⟨by norm_num, by simp [wPricing], c5_cost_model 5 22 (3/2) wPricing (by norm_num) (by simp [wPricing])⟩

/-! ## C3: the priority classifier matches the spec's ordered rules -/

/-- C3: for every vehicle and current time, `calculatePriority` returns
exactly the tier given by the spec's ordered rules (high when soc < 30 with
an imminent trip; high when soc < 30 without one; medium when soc < 60 with
a scheduled trip; low otherwise; first match wins). -/
theorem c3_priority_rules (nowMs : ℚ) (v : ElectricVehicle) :
    calculatePriority nowMs v = specPriorityRules nowMs v := by
  rcases h : v.trip_schedule with _ | ⟨t, ts⟩ <;>
    simp [calculatePriority, specPriorityRules, specPriorityRules.nextTripImminent,
      hoursUntilFirstTrip, h]

/-! ## Supporting lemmas: the 24-hour window scan -/

lemma scanLoop_append (d : ℚ) (pricing : List EnergyPricing) (ch : ℕ) :
    ∀ (l1 l2 : List ℕ) (st : Option ℚ × ℕ),
      scanLoop d pricing ch (l1 ++ l2) st =
        match scanLoop d pricing ch l1 st with
        | .error e => .error e
        | .ok st1 => scanLoop d pricing ch l2 st1 := by
  intro l1
  induction l1 with
  | nil => intro l2 st; simp [scanLoop]
  | cons j js ih =>
    intro l2 st
    simp only [List.cons_append, scanLoop]
    cases hc : calculateChargingCost 1 ((ch + j) % 24) d pricing with
    | error e => simp
    | ok c =>
      cases st.1 with
      | none => exact ih l2 _
      | some m =>
        by_cases hlt : c < m
        · simp only [if_pos hlt]; exact ih l2 _
        · simp only [if_neg hlt]; exact ih l2 _

lemma scanLoop_spec (d : ℚ) (pricing : List EnergyPricing) (ch : ℕ)
    (h24 : pricing.length = 24) :
    ∀ n : ℕ, ∃ j, j < n + 1 ∧
      scanLoop d pricing ch (List.range (n + 1)) (none, ch) =
        .ok (some (costVal 1 d pricing ((ch + j) % 24)), (ch + j) % 24) ∧
      (∀ i, i < n + 1 →
        costVal 1 d pricing ((ch + j) % 24) ≤ costVal 1 d pricing ((ch + i) % 24)) ∧
      (∀ i, i < j →
        costVal 1 d pricing ((ch + j) % 24) < costVal 1 d pricing ((ch + i) % 24)) := by
  intro n
  induction n with
  | zero =>
    refine ⟨0, by norm_num, ?_, ?_, ?_⟩
    · show scanLoop d pricing ch [0] (none, ch) = _
      simp only [scanLoop, calculateChargingCost_ok 1 d pricing ((ch + 0) % 24) h24]
    · intro i hi
      interval_cases i
      exact le_refl _
    · intro i hi
      omega
  | succ m ih =>
    obtain ⟨j, hj, heq, hmin, hstrict⟩ := ih
    rw [List.range_succ, scanLoop_append, heq]
    by_cases hlt : costVal 1 d pricing ((ch + (m + 1)) % 24) <
        costVal 1 d pricing ((ch + j) % 24)
    · refine ⟨m + 1, by omega, ?_, ?_, ?_⟩
      · simp only [scanLoop, calculateChargingCost_ok 1 d pricing ((ch + (m + 1)) % 24) h24,
          if_pos hlt]
      · intro i hi
        rcases Nat.lt_succ_iff_lt_or_eq.mp hi with hi2 | hi2
        · exact le_of_lt (lt_of_lt_of_le hlt (hmin i hi2))
        · subst hi2; exact le_refl _
      · intro i hi
        exact lt_of_lt_of_le hlt (hmin i (by omega))
    · refine ⟨j, by omega, ?_, ?_, hstrict⟩
      · simp only [scanLoop, calculateChargingCost_ok 1 d pricing ((ch + (m + 1)) % 24) h24,
          if_neg hlt]
      · intro i hi
        rcases Nat.lt_succ_iff_lt_or_eq.mp hi with hi2 | hi2
        · exact hmin i hi2
        · subst hi2; exact le_of_not_lt hlt

/-- Full characterization of `findOptimalChargingWindow` on a 24-entry price
table: return the current hour when the next trip is urgent, otherwise the
first-found cost-minimizing candidate of the forward scan. -/
lemma findOptimalWindow_cases (clock : Clock) (v : ElectricVehicle) (d : ℚ)
    (pricing : List EnergyPricing) (h24 : pricing.length = 24) :
    (tripUrgent clock v d = true →
      findOptimalChargingWindow clock v d pricing = .ok clock.hour)
    ∧ (tripUrgent clock v d = false →
        ∃ j, j < 24 ∧ (clock.hour + j) % 24 < 24 ∧
          findOptimalChargingWindow clock v d pricing = .ok ((clock.hour + j) % 24) ∧
          (∀ i, i < 24 → costVal 1 d pricing ((clock.hour + j) % 24) ≤
            costVal 1 d pricing ((clock.hour + i) % 24)) ∧
          (∀ i, i < j → costVal 1 d pricing ((clock.hour + j) % 24) <
            costVal 1 d pricing ((clock.hour + i) % 24))) := by
  constructor
  · intro hu
    simp [findOptimalChargingWindow, hu]
  · intro hu
    obtain ⟨j, hj, heq, hmin, hstrict⟩ := scanLoop_spec d pricing clock.hour h24 23
    refine ⟨j, by omega, Nat.mod_lt _ (by norm_num), ?_, fun i hi => hmin i (by omega), hstrict⟩
    simp only [findOptimalChargingWindow, hu, Bool.false_eq_true, if_false]
    rw [show (24 : ℕ) = 23 + 1 from rfl, heq]

lemma findOptimalWindow_ok (clock : Clock) (v : ElectricVehicle) (d : ℚ)
    (pricing : List EnergyPricing) (h24 : pricing.length = 24) :
    ∃ r, findOptimalChargingWindow clock v d pricing = .ok r := by
  cases hu : tripUrgent clock v d with
  | true => exact ⟨clock.hour, (findOptimalWindow_cases clock v d pricing h24).1 hu⟩
  | false =>
    obtain ⟨j, _, _, heq, _, _⟩ := (findOptimalWindow_cases clock v d pricing h24).2 hu
    exact ⟨_, heq⟩

/-- C4: on a 24-entry price table, `findOptimalChargingWindow` returns the
current hour when the vehicle's next trip departs within `d + 2` hours;
otherwise it returns an hour in 0–23 minimizing the hourly-cost-model cost of
a normalized 1 kWh charge of duration `d` over the 24 candidate start hours
scanned forward from the current hour (wrapping at 24), ties resolved to the
earliest candidate encountered in the forward scan. -/
theorem c4_optimal_window (clock : Clock) (v : ElectricVehicle) (d : ℚ)
    (pricing : List EnergyPricing) (_hd : 0 < d) (h24 : pricing.length = 24) :
    (tripUrgent clock v d = true →
      findOptimalChargingWindow clock v d pricing = .ok clock.hour)
    ∧ (tripUrgent clock v d = false →
        ∃ j, j < 24 ∧ (clock.hour + j) % 24 < 24 ∧
          findOptimalChargingWindow clock v d pricing = .ok ((clock.hour + j) % 24) ∧
          (∀ i, i < 24 → costVal 1 d pricing ((clock.hour + j) % 24) ≤
            costVal 1 d pricing ((clock.hour + i) % 24)) ∧
          (∀ i, i < j → costVal 1 d pricing ((clock.hour + j) % 24) <
            costVal 1 d pricing ((clock.hour + i) % 24))) :=
  findOptimalWindow_cases clock v d pricing h24

/-- Witness for C4 on the flat 24-entry table with a trip-free vehicle and
duration 2. -/
theorem c4_optimal_window_witness :
    (0 : ℚ) < 2 ∧ wPricing.length = 24 ∧
    ((tripUrgent wClock wVehicle 2 = true →
      findOptimalChargingWindow wClock wVehicle 2 wPricing = .ok wClock.hour)
    ∧ (tripUrgent wClock wVehicle 2 = false →
        ∃ j, j < 24 ∧ (wClock.hour + j) % 24 < 24 ∧
          findOptimalChargingWindow wClock wVehicle 2 wPricing = .ok ((wClock.hour + j) % 24) ∧
          (∀ i, i < 24 → costVal 1 2 wPricing ((wClock.hour + j) % 24) ≤
            costVal 1 2 wPricing ((wClock.hour + i) % 24)) ∧
          (∀ i, i < j → costVal 1 2 wPricing ((wClock.hour + j) % 24) <
            costVal 1 2 wPricing ((wClock.hour + i) % 24)))) :=
  ⟨by norm_num, by simp [wPricing],
    c4_optimal_window wClock wVehicle 2 wPricing (by norm_num) (by simp [wPricing])⟩

/-! ## Supporting lemmas: station selection and the priority sort -/

lemma nearestLoop_spec (v : ElectricVehicle) (assigned : List String) :
    ∀ (l : List ChargingStation) (acc : Option (ChargingStation × ℚ))
      (st : ChargingStation) (d2 : ℚ),
      nearestLoop v assigned l acc = some (st, d2) →
      (st ∈ l ∧ st.station_id ∉ assigned) ∨ acc = some (st, d2) := by
  intro l
  induction l with
  | nil => intro acc st d2 h; right; exact h
  | cons s rest ih =>
    intro acc st d2 h
    by_cases hs : s.station_id ∈ assigned
    · simp only [nearestLoop, if_pos hs] at h
      rcases ih acc st d2 h with ⟨hm, hna⟩ | hacc
      · exact Or.inl ⟨List.mem_cons_of_mem _ hm, hna⟩
      · exact Or.inr hacc
    · simp only [nearestLoop, if_neg hs] at h
      cases acc with
      | none =>
        rcases ih _ st d2 h with ⟨hm, hna⟩ | hacc
        · exact Or.inl ⟨List.mem_cons_of_mem _ hm, hna⟩
        · obtain ⟨rfl, -⟩ : s = st ∧ calculateDistanceSq v.location s.location = d2 := by
            simpa using hacc
          exact Or.inl ⟨List.mem_cons_self _ _, hs⟩
      | some bm =>
        obtain ⟨b, m⟩ := bm
        by_cases hlt : calculateDistanceSq v.location s.location < m
        · simp only [if_pos hlt] at h
          rcases ih _ st d2 h with ⟨hm, hna⟩ | hacc
          · exact Or.inl ⟨List.mem_cons_of_mem _ hm, hna⟩
          · obtain ⟨rfl, -⟩ : s = st ∧ calculateDistanceSq v.location s.location = d2 := by
              simpa using hacc
            exact Or.inl ⟨List.mem_cons_self _ _, hs⟩
        · simp only [if_neg hlt] at h
          rcases ih _ st d2 h with ⟨hm, hna⟩ | hacc
          · exact Or.inl ⟨List.mem_cons_of_mem _ hm, hna⟩
          · exact Or.inr hacc

lemma selectNearest_spec (v : ElectricVehicle) (stations : List ChargingStation)
    (assigned : List String) (st : ChargingStation) (d2 : ℚ)
    (h : selectNearest v stations assigned = some (st, d2)) :
    st ∈ stations ∧ st.station_id ∉ assigned := by
  rcases nearestLoop_spec v assigned stations none st d2 h with hgood | hbad
  · exact hgood
  · exact absurd hbad (by simp)

lemma insertDesc_perm (rank : ElectricVehicle → ℕ) (v : ElectricVehicle) :
    ∀ l : List ElectricVehicle, (insertDesc rank v l).Perm (v :: l) := by
  intro l
  induction l with
  | nil => simp [insertDesc]
  | cons w ws ih =>
    by_cases hr : rank w ≤ rank v
    · simp [insertDesc, if_pos hr]
    · simp only [insertDesc, if_neg hr]
      exact (ih.cons w).trans (List.Perm.swap v w ws)

lemma sortDesc_perm (rank : ElectricVehicle → ℕ) :
    ∀ l : List ElectricVehicle, (sortDesc rank l).Perm l := by
  intro l
  induction l with
  | nil => simp [sortDesc]
  | cons v vs ih =>
    exact (insertDesc_perm rank v (sortDesc rank vs)).trans (ih.cons v)

/-! ## Supporting lemmas: the per-vehicle scheduling loop -/

lemma scheduleLoop_spec (clock : Clock) (pricing : List EnergyPricing)
    (avail : List ChargingStation) :
    ∀ (vs : List ElectricVehicle) (assigned : List String) (ps : List ChargingPlan),
      scheduleLoop clock pricing avail vs assigned = .ok ps →
      (ps.map (·.station_id)).Nodup
      ∧ (∀ sid ∈ ps.map (·.station_id), sid ∉ assigned)
      ∧ (ps.map (·.vehicle_id)).Sublist (vs.map (·.vehicle_id))
      ∧ ∀ p ∈ ps, ∃ v, v ∈ vs ∧ p.vehicle_id = v.vehicle_id
          ∧ p.energy_to_charge = round1 (energyNeeded v)
          ∧ 0 < energyNeeded v := by
  intro vs
  induction vs with
  | nil =>
    intro assigned ps h
    simp only [scheduleLoop] at h
    obtain rfl : ps = [] := by simpa using h.symm
    simp
  | cons v rest ih =>
    intro assigned ps h
    simp only [scheduleLoop] at h
    by_cases he : energyNeeded v ≤ 0
    · rw [if_pos he] at h
      obtain ⟨h1, h2, h3, h4⟩ := ih assigned ps h
      refine ⟨h1, h2, h3.cons _, fun p hp => ?_⟩
      obtain ⟨u, hu, hrest⟩ := h4 p hp
      exact ⟨u, List.mem_cons_of_mem _ hu, hrest⟩
    · rw [if_neg he] at h
      cases hsel : selectNearest v avail assigned with
      | none =>
        simp only [hsel] at h
        obtain ⟨h1, h2, h3, h4⟩ := ih assigned ps h
        refine ⟨h1, h2, h3.cons _, fun p hp => ?_⟩
        obtain ⟨u, hu, hrest⟩ := h4 p hp
        exact ⟨u, List.mem_cons_of_mem _ hu, hrest⟩
      | some pair =>
        obtain ⟨st, d2⟩ := pair
        simp only [hsel] at h
        by_cases hrate : min st.max_power v.charging_speed = 0
        · rw [if_pos hrate] at h; simp at h
        · rw [if_neg hrate] at h
          cases hopt : findOptimalChargingWindow clock v
              (energyNeeded v / min st.max_power v.charging_speed) pricing with
          | error e => simp [hopt] at h
          | ok optH =>
            simp only [hopt] at h
            cases hcost : calculateChargingCost (energyNeeded v) optH
                (energyNeeded v / min st.max_power v.charging_speed) pricing with
            | error e => simp [hcost] at h
            | ok cost =>
              simp only [hcost] at h
              cases hrec : scheduleLoop clock pricing avail rest
                  (st.station_id :: assigned) with
              | error e => simp [hrec] at h
              | ok plans =>
                simp only [hrec] at h
                obtain rfl : ps = mkPlanFor clock v st d2 optH (energyNeeded v)
                    (min st.max_power v.charging_speed) cost :: plans := by
                  simpa using h.symm
                obtain ⟨h1, h2, h3, h4⟩ := ih (st.station_id :: assigned) plans hrec
                obtain ⟨hstmem, hstna⟩ := selectNearest_spec v avail assigned st d2 hsel
                have hfs : (mkPlanFor clock v st d2 optH (energyNeeded v)
                    (min st.max_power v.charging_speed) cost).station_id = st.station_id := rfl
                have hfv : (mkPlanFor clock v st d2 optH (energyNeeded v)
                    (min st.max_power v.charging_speed) cost).vehicle_id = v.vehicle_id := rfl
                have hfe : (mkPlanFor clock v st d2 optH (energyNeeded v)
                    (min st.max_power v.charging_speed) cost).energy_to_charge
                      = round1 (energyNeeded v) := rfl
                refine ⟨?_, ?_, ?_, ?_⟩
                · simp only [List.map_cons]
                  refine List.nodup_cons.mpr ⟨?_, h1⟩
                  rw [hfs]
                  intro hmem
                  exact h2 _ hmem (List.mem_cons_self _ _)
                · simp only [List.map_cons, List.mem_cons]
                  rintro sid (rfl | hmem)
                  · rw [hfs]; exact hstna
                  · exact fun ha => h2 sid hmem (List.mem_cons_of_mem _ ha)
                · simp only [List.map_cons, hfv]
                  exact List.Sublist.cons₂ _ h3
                · intro p hp0
                  rcases List.mem_cons.mp hp0 with rfl | hp
                  · exact ⟨v, List.mem_cons_self _ _, hfv, hfe, lt_of_not_le he⟩
                  · obtain ⟨u, hu, hrest⟩ := h4 p hp
                    exact ⟨u, List.mem_cons_of_mem _ hu, hrest⟩

lemma scheduleLoop_ok (clock : Clock) (pricing : List EnergyPricing)
    (avail : List ChargingStation) (h24 : pricing.length = 24)
    (hs : ∀ s ∈ avail, s.max_power ≠ 0) :
    ∀ (vs : List ElectricVehicle) (assigned : List String),
      (∀ v ∈ vs, v.charging_speed ≠ 0) →
      ∃ ps, scheduleLoop clock pricing avail vs assigned = .ok ps := by
  intro vs
  induction vs with
  | nil => intro assigned _; exact ⟨[], rfl⟩
  | cons v rest ih =>
    intro assigned hv
    simp only [scheduleLoop]
    by_cases he : energyNeeded v ≤ 0
    · rw [if_pos he]
      exact ih assigned (fun u hu => hv u (List.mem_cons_of_mem _ hu))
    · rw [if_neg he]
      cases hsel : selectNearest v avail assigned with
      | none =>
        simp only [hsel]
        exact ih assigned (fun u hu => hv u (List.mem_cons_of_mem _ hu))
      | some pair =>
        obtain ⟨st, d2⟩ := pair
        simp only [hsel]
        have hrate : min st.max_power v.charging_speed ≠ 0 := by
          rcases min_choice st.max_power v.charging_speed with hm | hm <;> rw [hm]
          · exact hs st (selectNearest_spec v avail assigned st d2 hsel).1
          · exact hv v (List.mem_cons_self _ _)
        rw [if_neg hrate]
        obtain ⟨optH, hopt⟩ := findOptimalWindow_ok clock v
          (energyNeeded v / min st.max_power v.charging_speed) pricing h24
        simp only [hopt]
        rw [calculateChargingCost_ok (energyNeeded v)
          (energyNeeded v / min st.max_power v.charging_speed) pricing optH h24]
        obtain ⟨ps, hps⟩ := ih (st.station_id :: assigned)
          (fun u hu => hv u (List.mem_cons_of_mem _ hu))
        rw [hps]
        exact ⟨_, rfl⟩

/-! ## C1, C2, C6, C7, C10: properties of `optimizeChargingSchedule` -/

/-- C1: no two plans of one optimization cycle reference the same
`station_id` — once a station is assigned to a vehicle in a cycle it is
never selected again in that cycle. -/
theorem c1_no_double_booking (clock : Clock) (fleet : List ElectricVehicle)
    (stations : List ChargingStation) (pricing : List EnergyPricing)
    (ps : List ChargingPlan)
    (h : optimizeChargingSchedule clock fleet stations pricing = .ok ps) :
    (ps.map (·.station_id)).Nodup := by
  simp only [optimizeChargingSchedule] at h
  exact (scheduleLoop_spec clock pricing _ _ _ ps h).1

/-- Witness for C1 on the concrete one-vehicle fleet. -/
theorem c1_no_double_booking_witness :
    optimizeChargingSchedule wClock wFleet wStations wPricing = .ok [wPlan] ∧
    (([wPlan] : List ChargingPlan).map (·.station_id)).Nodup :=
  ⟨by with_unfolding_all rfl,
    c1_no_double_booking wClock wFleet wStations wPricing [wPlan]
      (by with_unfolding_all rfl)⟩

/-- C2: every returned plan's `energy_to_charge` is
`battery_capacity * (90 - soc) / 100` of its vehicle rounded to one decimal
place, and that (pre-rounding) amount is strictly positive. -/
theorem c2_energy_to_charge (clock : Clock) (fleet : List ElectricVehicle)
    (stations : List ChargingStation) (pricing : List EnergyPricing)
    (ps : List ChargingPlan)
    (h : optimizeChargingSchedule clock fleet stations pricing = .ok ps) :
    ∀ p ∈ ps, ∃ v, v ∈ fleet ∧ p.vehicle_id = v.vehicle_id
      ∧ p.energy_to_charge = round1 (v.battery_capacity * (90 - v.soc) / 100)
      ∧ 0 < v.battery_capacity * (90 - v.soc) / 100 := by
  simp only [optimizeChargingSchedule] at h
  intro p hp
  obtain ⟨v, hv, hid, hen, hpos⟩ :=
    (scheduleLoop_spec clock pricing _ _ _ ps h).2.2.2 p hp
  exact ⟨v, List.mem_of_mem_filter ((sortDesc_perm _ _).mem_iff.mp hv), hid, hen, hpos⟩

/-- Witness for C2 at the concrete plan. -/
theorem c2_energy_to_charge_witness :
    optimizeChargingSchedule wClock wFleet wStations wPricing = .ok [wPlan] ∧
    wPlan ∈ [wPlan] ∧
    (∃ v, v ∈ wFleet ∧ wPlan.vehicle_id = v.vehicle_id
      ∧ wPlan.energy_to_charge = round1 (v.battery_capacity * (90 - v.soc) / 100)
      ∧ 0 < v.battery_capacity * (90 - v.soc) / 100) :=
  ⟨by with_unfolding_all rfl, by simp,
    c2_energy_to_charge wClock wFleet wStations wPricing [wPlan]
      (by with_unfolding_all rfl) wPlan (by simp)⟩

/-- C6: `optimizeChargingSchedule` is deterministic — with a fixed fleet,
station list, price table and frozen wall clock, two calls return the same
plan list. -/
theorem c6_deterministic (clock : Clock) (fleet : List ElectricVehicle)
    (stations : List ChargingStation) (pricing : List EnergyPricing)
    (ps1 ps2 : List ChargingPlan)
    (h1 : optimizeChargingSchedule clock fleet stations pricing = .ok ps1)
    (h2 : optimizeChargingSchedule clock fleet stations pricing = .ok ps2) :
    ps1 = ps2 := by
  rw [h1] at h2
  exact Except.ok.inj h2

/-- Witness for C6: two evaluations on the frozen concrete inputs. -/
theorem c6_deterministic_witness :
    optimizeChargingSchedule wClock wFleet wStations wPricing = .ok [wPlan] ∧
    ([wPlan] : List ChargingPlan) = [wPlan] :=
  ⟨by with_unfolding_all rfl,
    c6_deterministic wClock wFleet wStations wPricing [wPlan] [wPlan]
      (by with_unfolding_all rfl) (by with_unfolding_all rfl)⟩

/-- Counterexample to C7 as stated: on an input whose price table is empty
(such inputs are not excluded by "on any input"), the cost computation
indexes past the table and the JS code throws a `TypeError`
(`pricing[hour]` is `undefined`); the embedding returns the corresponding
error. -/
theorem c7_counterexample_empty_pricing :
    optimizeChargingSchedule wClock wFleet wStations [] =
      .error "price index out of range" := by
  with_unfolding_all rfl

/-- C7 (amended): on any input whose price table has 24 entries and whose
stations and vehicles have nonzero power ratings, `optimizeChargingSchedule`
raises no error, and every vehicle with `soc ≥ 80`, or status `maintenance`
or `in_use`, or non-positive energy need, or no remaining station, is simply
absent: every returned plan belongs to a vehicle that passed all filters. -/
theorem c7_silent_exclusion (clock : Clock) (fleet : List ElectricVehicle)
    (stations : List ChargingStation) (pricing : List EnergyPricing)
    (h24 : pricing.length = 24)
    (hstat : ∀ s ∈ stations, s.max_power ≠ 0)
    (hveh : ∀ v ∈ fleet, v.charging_speed ≠ 0) :
    ∃ ps, optimizeChargingSchedule clock fleet stations pricing = .ok ps ∧
      ∀ p ∈ ps, ∃ v, v ∈ fleet ∧ p.vehicle_id = v.vehicle_id
        ∧ v.soc < 80 ∧ v.status ≠ VStatus.maintenance ∧ v.status ≠ VStatus.in_use
        ∧ 0 < energyNeeded v := by
  obtain ⟨ps, hps⟩ := scheduleLoop_ok clock pricing (stations.filter (·.available)) h24
    (fun s hs => hstat s (List.mem_of_mem_filter hs))
    (sortDesc (fun v => priorityOrder (calculatePriority clock.nowMs v))
      (fleet.filter (fun v =>
        decide (v.soc < 80 ∧ v.status ≠ VStatus.maintenance ∧
          v.status ≠ VStatus.in_use)))) []
    (fun v hv => hveh v (List.mem_of_mem_filter ((sortDesc_perm _ _).mem_iff.mp hv)))
  refine ⟨ps, by simp only [optimizeChargingSchedule]; exact hps, ?_⟩
  intro p hp
  obtain ⟨v, hv, hid, _, hpos⟩ :=
    (scheduleLoop_spec clock pricing _ _ _ ps hps).2.2.2 p hp
  have hvfil := (sortDesc_perm _ _).mem_iff.mp hv
  have hcond := List.of_mem_filter hvfil
  rw [decide_eq_true_eq] at hcond
  exact ⟨v, List.mem_of_mem_filter hvfil, hid, hcond.1, hcond.2.1, hcond.2.2, hpos⟩

/-- Witness for the amended C7 on the concrete inputs. -/
theorem c7_silent_exclusion_witness :
    wPricing.length = 24 ∧ (∀ s ∈ wStations, s.max_power ≠ 0) ∧
    (∀ v ∈ wFleet, v.charging_speed ≠ 0) ∧
    ∃ ps, optimizeChargingSchedule wClock wFleet wStations wPricing = .ok ps ∧
      ∀ p ∈ ps, ∃ v, v ∈ wFleet ∧ p.vehicle_id = v.vehicle_id
        ∧ v.soc < 80 ∧ v.status ≠ VStatus.maintenance ∧ v.status ≠ VStatus.in_use
        ∧ 0 < energyNeeded v :=
  ⟨by simp [wPricing], by norm_num [wStations, wStation], by norm_num [wFleet, wVehicle],
    c7_silent_exclusion wClock wFleet wStations wPricing (by simp [wPricing])
      (by norm_num [wStations, wStation]) (by norm_num [wFleet, wVehicle])⟩

/-- C10: when all `vehicle_id`s of the input fleet are pairwise distinct,
each `vehicle_id` appears in at most one returned plan. -/
theorem c10_one_plan_per_vehicle (clock : Clock) (fleet : List ElectricVehicle)
    (stations : List ChargingStation) (pricing : List EnergyPricing)
    (ps : List ChargingPlan)
    (hnd : (fleet.map (·.vehicle_id)).Nodup)
    (h : optimizeChargingSchedule clock fleet stations pricing = .ok ps) :
    (ps.map (·.vehicle_id)).Nodup := by
  simp only [optimizeChargingSchedule] at h
  have hsub := (scheduleLoop_spec clock pricing _ _ _ ps h).2.2.1
  have hperm : ((sortDesc (fun v => priorityOrder (calculatePriority clock.nowMs v))
      (fleet.filter (fun v =>
        decide (v.soc < 80 ∧ v.status ≠ VStatus.maintenance ∧
          v.status ≠ VStatus.in_use)))).map (·.vehicle_id)).Perm
      ((fleet.filter (fun v =>
        decide (v.soc < 80 ∧ v.status ≠ VStatus.maintenance ∧
          v.status ≠ VStatus.in_use))).map (·.vehicle_id)) :=
    (sortDesc_perm _ _).map _
  have hfilnd : ((fleet.filter (fun v =>
      decide (v.soc < 80 ∧ v.status ≠ VStatus.maintenance ∧
        v.status ≠ VStatus.in_use))).map (·.vehicle_id)).Nodup :=
    hnd.sublist ((List.filter_sublist _).map _)
  exact (hperm.nodup_iff.mpr hfilnd).sublist hsub

/-- Witness for C10 on the concrete one-vehicle fleet. -/
theorem c10_one_plan_per_vehicle_witness :
    ((wFleet.map (·.vehicle_id)).Nodup) ∧
    optimizeChargingSchedule wClock wFleet wStations wPricing = .ok [wPlan] ∧
    (([wPlan] : List ChargingPlan).map (·.vehicle_id)).Nodup :=
  ⟨by simp [wFleet], by with_unfolding_all rfl,
    c10_one_plan_per_vehicle wClock wFleet wStations wPricing [wPlan]
      (by simp [wFleet]) (by with_unfolding_all rfl)⟩

/-! ## Supporting lemmas: the Q-table association-list operations -/

lemma alFind_alSet_self {α : Type} (k : String) (v : α) :
    ∀ l : List (String × α), alFind k (alSet k v l) = some v := by
  intro l
  induction l with
  | nil => simp [alSet, alFind]
  | cons p rest ih =>
    obtain ⟨k1, v1⟩ := p
    by_cases hk : k1 = k
    · simp [alSet, alFind, hk]
    · simp only [alSet, if_neg hk, alFind, if_neg hk]
      exact ih

lemma alFind_alSet_ne {α : Type} (k k1 : String) (v : α) (h : k1 ≠ k) :
    ∀ l : List (String × α), alFind k1 (alSet k v l) = alFind k1 l := by
  intro l
  induction l with
  | nil => simp [alSet, alFind, Ne.symm h]
  | cons p rest ih =>
    obtain ⟨k2, v2⟩ := p
    by_cases hk : k2 = k
    · subst hk
      simp only [alSet, if_pos rfl, alFind]
      rw [if_neg (fun he => h he.symm), if_neg (fun he => h he.symm)]
    · simp only [alSet, if_neg hk, alFind]
      by_cases hk2 : k2 = k1
      · rw [if_pos hk2, if_pos hk2]
      · rw [if_neg hk2, if_neg hk2]
        exact ih

lemma alFind_ensureState_self (t : QTable) (sk : String) :
    alFind sk (ensureState t sk) = some ((alFind sk t).getD []) := by
  unfold ensureState
  cases h : alFind sk t with
  | some acts => simp [h]
  | none => simp [h, alFind_alSet_self]

lemma alFind_ensureState_ne (t : QTable) (sk sk1 : String) (h : sk1 ≠ sk) :
    alFind sk1 (ensureState t sk) = alFind sk1 t := by
  unfold ensureState
  cases hf : alFind sk t with
  | some acts => rfl
  | none => exact alFind_alSet_ne sk sk1 [] h t

lemma alFind_ensureAction_self (acts : ActionMap) (sk ak : String) :
    alFind ak (ensureAction acts sk ak) =
      some ((alFind ak acts).getD ⟨sk, ak, 0, 0⟩) := by
  unfold ensureAction
  cases h : alFind ak acts with
  | some qv => simp [h]
  | none => simp [h, alFind_alSet_self]

lemma alFind_ensureAction_ne (acts : ActionMap) (sk ak ak1 : String) (h : ak1 ≠ ak) :
    alFind ak1 (ensureAction acts sk ak) = alFind ak1 acts := by
  unfold ensureAction
  cases hf : alFind ak acts with
  | some qv => rfl
  | none => exact alFind_alSet_ne ak ak1 _ h acts

lemma getQValueT_fst (t : QTable) (s : AgentState) (a : AgentAction) :
    (getQValueT t s a).1 = qval t (stateToKey s) (actionToKey a) := by
  simp only [getQValueT, alFind_ensureState_self, Option.getD_some,
    alFind_ensureAction_self]
  unfold qval
  cases hf : alFind (actionToKey a) ((alFind (stateToKey s) t).getD []) <;> simp [hf]

lemma qval_getQValueT (t : QTable) (s : AgentState) (a : AgentAction)
    (sk1 ak1 : String) :
    qval (getQValueT t s a).2 sk1 ak1 = qval t sk1 ak1 := by
  simp only [getQValueT]
  by_cases hsk : sk1 = stateToKey s
  · subst hsk
    unfold qval
    rw [alFind_alSet_self]
    simp only [Option.getD_some]
    by_cases hak : ak1 = actionToKey a
    · subst hak
      rw [alFind_ensureAction_self, alFind_ensureState_self]
      simp only [Option.getD_some]
      cases hf : alFind (actionToKey a) ((alFind (stateToKey s) t).getD []) <;> simp [hf]
    · rw [alFind_ensureAction_ne _ _ _ _ hak, alFind_ensureState_self]
      simp only [Option.getD_some]
  · unfold qval
    rw [alFind_alSet_ne _ _ _ hsk, alFind_ensureState_ne _ _ _ hsk]

lemma qvisits_getQValueT (t : QTable) (s : AgentState) (a : AgentAction)
    (sk1 ak1 : String) :
    qvisits (getQValueT t s a).2 sk1 ak1 = qvisits t sk1 ak1 := by
  simp only [getQValueT]
  by_cases hsk : sk1 = stateToKey s
  · subst hsk
    unfold qvisits
    rw [alFind_alSet_self]
    simp only [Option.getD_some]
    by_cases hak : ak1 = actionToKey a
    · subst hak
      rw [alFind_ensureAction_self, alFind_ensureState_self]
      simp only [Option.getD_some]
      cases hf : alFind (actionToKey a) ((alFind (stateToKey s) t).getD []) <;> simp [hf]
    · rw [alFind_ensureAction_ne _ _ _ _ hak, alFind_ensureState_self]
      simp only [Option.getD_some]
  · unfold qvisits
    rw [alFind_alSet_ne _ _ _ hsk, alFind_ensureState_ne _ _ _ hsk]

lemma getQList_spec (s2 : AgentState) :
    ∀ (as : List AgentAction) (t : QTable),
      (getQList t s2 as).1 =
        as.map (fun a => qval t (stateToKey s2) (actionToKey a))
      ∧ (∀ sk1 ak1, qval (getQList t s2 as).2 sk1 ak1 = qval t sk1 ak1)
      ∧ (∀ sk1 ak1, qvisits (getQList t s2 as).2 sk1 ak1 = qvisits t sk1 ak1) := by
  intro as
  induction as with
  | nil => intro t; exact ⟨rfl, fun _ _ => rfl, fun _ _ => rfl⟩
  | cons a as ih =>
    intro t
    obtain ⟨ih1, ih2, ih3⟩ := ih (getQValueT t s2 a).2
    refine ⟨?_, ?_, ?_⟩
    · simp only [getQList, List.map_cons, getQValueT_fst, ih1, qval_getQValueT]
    · intro sk1 ak1
      simp only [getQList]
      rw [ih2 sk1 ak1, qval_getQValueT]
    · intro sk1 ak1
      simp only [getQList]
      rw [ih3 sk1 ak1, qvisits_getQValueT]

lemma getD_value_eq_qval (t : QTable) (sk ak : String) :
    ((alFind ak ((alFind sk t).getD [])).getD ⟨sk, ak, 0, 0⟩).value = qval t sk ak := by
  unfold qval
  cases h : alFind ak ((alFind sk t).getD []) <;> simp [h]

lemma getD_visits_eq_qvisits (t : QTable) (sk ak : String) :
    ((alFind ak ((alFind sk t).getD [])).getD ⟨sk, ak, 0, 0⟩).visits = qvisits t sk ak := by
  unfold qvisits
  cases h : alFind ak ((alFind sk t).getD []) <;> simp [h]

lemma qval_alSet_alSet (t2 : QTable) (acts : ActionMap) (sk ak : String) (E : QValue) :
    qval (alSet sk (alSet ak E acts) t2) sk ak = E.value := by
  unfold qval
  rw [alFind_alSet_self]
  simp only [Option.getD_some]
  rw [alFind_alSet_self]

lemma qvisits_alSet_alSet (t2 : QTable) (acts : ActionMap) (sk ak : String) (E : QValue) :
    qvisits (alSet sk (alSet ak E acts) t2) sk ak = E.visits := by
  unfold qvisits
  rw [alFind_alSet_self]
  simp only [Option.getD_some]
  rw [alFind_alSet_self]

/-! ## C8: the Q-learning update -/

/-- C8: `learn(s, a, r, s2)` replaces the stored value at `(s, a)` by
`Q(s,a) + 0.1 * (r + 0.95 * max over the 10 actions of Q(s2, a2) - Q(s,a))`,
reading any absent entry as 0 and lazily creating the touched entry, and it
increments the visit counter of the touched entry by exactly 1. -/
theorem c8_learn_q_update (ag : Agent) (s : AgentState) (a : AgentAction)
    (r : ℚ) (s2 : AgentState) :
    possibleActions.length = 10 ∧
    (alFind (actionToKey a)
      ((alFind (stateToKey s) (learn ag s a r s2).qTable).getD [])).isSome = true ∧
    qval (learn ag s a r s2).qTable (stateToKey s) (actionToKey a)
      = qval ag.qTable (stateToKey s) (actionToKey a)
        + 0.1 * (r + 0.95 * listMax (possibleActions.map
            (fun a2 => qval ag.qTable (stateToKey s2) (actionToKey a2)))
          - qval ag.qTable (stateToKey s) (actionToKey a)) ∧
    qvisits (learn ag s a r s2).qTable (stateToKey s) (actionToKey a)
      = qvisits ag.qTable (stateToKey s) (actionToKey a) + 1 := by
  obtain ⟨hl1, hl2, hl3⟩ :=
    getQList_spec s2 possibleActions (getQValueT ag.qTable s a).2
  refine ⟨rfl, ?_, ?_, ?_⟩
  · simp only [learn, updateQValue]
    rw [alFind_alSet_self]
    simp only [Option.getD_some]
    rw [alFind_alSet_self]
    rfl
  · simp only [learn, updateQValue, qval_alSet_alSet, getQValueT_fst, hl1,
      qval_getQValueT, learningRate, discountFactor]
  · simp only [learn, updateQValue, qvisits_alSet_alSet, getD_visits_eq_qvisits,
      hl3, qvisits_getQValueT]

/-! ## C9: table reads through selectAction / recommendStrategy -/

lemma selectBest_preserve (s : AgentState) :
    ∀ (as : List AgentAction) (t : QTable) (best : AgentAction) (bv : ℚ)
      (sk1 ak1 : String),
      qval (selectBest t s as best bv).2 sk1 ak1 = qval t sk1 ak1
      ∧ qvisits (selectBest t s as best bv).2 sk1 ak1 = qvisits t sk1 ak1 := by
  intro as
  induction as with
  | nil => intro t best bv sk1 ak1; exact ⟨rfl, rfl⟩
  | cons a as ih =>
    intro t best bv sk1 ak1
    simp only [selectBest]
    by_cases hgt : (getQValueT t s a).1 > bv
    · rw [if_pos hgt]
      obtain ⟨i1, i2⟩ := ih (getQValueT t s a).2 a (getQValueT t s a).1 sk1 ak1
      exact ⟨by rw [i1, qval_getQValueT], by rw [i2, qvisits_getQValueT]⟩
    · rw [if_neg hgt]
      obtain ⟨i1, i2⟩ := ih (getQValueT t s a).2 best bv sk1 ak1
      exact ⟨by rw [i1, qval_getQValueT], by rw [i2, qvisits_getQValueT]⟩

lemma selectActionT_preserve (t : QTable) (s : AgentState) (rand : ℚ)
    (randIdx : ℕ) (sk1 ak1 : String) :
    qval (selectActionT t s rand randIdx).2 sk1 ak1 = qval t sk1 ak1
    ∧ qvisits (selectActionT t s rand randIdx).2 sk1 ak1 = qvisits t sk1 ak1 := by
  simp only [selectActionT]
  by_cases hr : rand < agentEpsilon
  · rw [if_pos hr]
    exact ⟨rfl, rfl⟩
  · rw [if_neg hr]
    obtain ⟨i1, i2⟩ := selectBest_preserve s possibleActions
      (getQValueT t s (possibleActions.headD ⟨false, 0, .low⟩)).2
      (possibleActions.headD ⟨false, 0, .low⟩)
      (getQValueT t s (possibleActions.headD ⟨false, 0, .low⟩)).1 sk1 ak1
    exact ⟨by rw [i1, qval_getQValueT], by rw [i2, qvisits_getQValueT]⟩

/-- Counterexample to C9 as stated: on an empty Q-table, an exploitation call
of `selectAction` (random draw 1 ≥ ε) adds entries to the table (the lazy
zero-initialization inside `getQValue`), so the table is not left unchanged. -/
theorem c9_counterexample_selectAction_mutates :
    (selectActionT ([] : QTable) wAgentState 1 0).2 ≠ ([] : QTable) := by
  with_unfolding_all decide

/-- C9 (amended): `selectAction` and `recommendStrategy` may lazily insert
missing entries initialized to value 0 and visit count 0, but they preserve
the value and the visit counter read at every `(state, action)` key — no
existing entry is modified or removed; in this observational sense only
`learn` mutates the Q-table. -/
theorem c9_reads_preserve_table (t : QTable) (s : AgentState) (rand : ℚ)
    (randIdx : ℕ) (ag : Agent) (v : ElectricVehicle)
    (currentHour energyPrice stationAvailability rand2 : ℚ) (randIdx2 : ℕ)
    (sk ak : String) :
    qval (selectActionT t s rand randIdx).2 sk ak = qval t sk ak
    ∧ qvisits (selectActionT t s rand randIdx).2 sk ak = qvisits t sk ak
    ∧ qval (recommendStrategyT ag v currentHour energyPrice stationAvailability
        rand2 randIdx2).2 sk ak = qval ag.qTable sk ak
    ∧ qvisits (recommendStrategyT ag v currentHour energyPrice stationAvailability
        rand2 randIdx2).2 sk ak = qvisits ag.qTable sk ak := by
  obtain ⟨h1, h2⟩ := selectActionT_preserve t s rand randIdx sk ak
  refine ⟨h1, h2, ?_, ?_⟩
  · simp only [recommendStrategyT, qval_getQValueT]
    exact (selectActionT_preserve ag.qTable _ rand2 randIdx2 sk ak).1
  · simp only [recommendStrategyT, qvisits_getQValueT]
    exact (selectActionT_preserve ag.qTable _ rand2 randIdx2 sk ak).2
